import Mathlib

/-!
Verification of the Gregorian-to-Hebrew date conversion of
`src/day02/hebrew_date.py` against its specification.

The repository source contains the presentation shell and the final
name-resolution and formatting steps of `gregorian_to_hebrew`; all calendar
arithmetic (Gregorian to Julian Day Number, JDN to Hebrew date) is delegated
to the external convertdate library and is therefore modelled here from the
specification (sections 4.1 and 4.2).  The month-name table, the index-13
special case, and the formatted string are embedded from the source itself
(lines 63 to 82 of `src/day02/hebrew_date.py`).
-/

set_option maxRecDepth 40000

deriving instance DecidableEq for Except

/- ## Gregorian calendar and Julian Day Numbers (spec section 4.1) -/

/-- Modelled from the spec: Gregorian leap-year rule of section 4.1 (the source
delegates this validation to the external convertdate library, absent from
src): a leap year is one divisible by 4 and (not divisible by 100, or divisible
by 400). -/
def gregorianLeap (y : Int) : Bool :=
  y % 4 == 0 && (y % 100 != 0 || y % 400 == 0)

/-- Modelled from the spec: number of days in a Gregorian month, accounting for
leap years. -/
def gregorianDaysInMonth (y m : Int) : Int :=
  if m = 2 then (if gregorianLeap y then 29 else 28)
  else if m = 4 ∨ m = 6 ∨ m = 9 ∨ m = 11 then 30
  else 31

/-- Modelled from the spec: structural validity of a Gregorian (year, month,
day) triple; month in [1,12] and day in range for that month and year. -/
def validGregorian (y m d : Int) : Bool :=
  1 ≤ m && m ≤ 12 && 1 ≤ d && d ≤ gregorianDaysInMonth y m

/-- Modelled from the spec: the standard closed-form, integer-only algorithm
mapping a proleptic Gregorian date to its Julian Day Number (the convertdate
julianday helper that the source probes for is not under src). -/
def gregorianToJdn (y m d : Int) : Int :=
  let y2 := if m ≤ 2 then y - 1 else y
  let era := y2 / 400
  let yoe := y2 - era * 400
  let mp := if m ≤ 2 then m + 9 else m - 3
  let doy := (153 * mp + 2) / 5 + d - 1
  let doe := yoe * 365 + yoe / 4 - yoe / 100 + doy
  era * 146097 + doe + 1721120

/-- Modelled from the spec: the Julian Day Number of January 1 of a proleptic
Gregorian year, the start of the civil year that `from_jdn` walks. -/
def jdnOfJan1 (y : Int) : Int := gregorianToJdn y 1 1

/-- Modelled from the spec: the per-month day counts of a Gregorian year as
(month, day_count) pairs, February depending on the leap rule. -/
def gregMonthLengths (y : Int) : List (Int × Int) :=
  [(1, 31), (2, if gregorianLeap y then 29 else 28), (3, 31), (4, 30), (5, 31), (6, 30),
   (7, 31), (8, 31), (9, 30), (10, 31), (11, 30), (12, 31)]

/- ## Hebrew calendar engine (spec section 4.2) -/

/-- Modelled from the spec: `is_leap_year(hebrew_year)` is true iff
`hebrew_year mod 19` lies in the cycle-position set 3, 6, 8, 11, 14, 17, 0. -/
def is_leap_year (y : Int) : Bool :=
  let r := y % 19
  r == 3 || r == 6 || r == 8 || r == 11 || r == 14 || r == 17 || r == 0

/-- Modelled from the spec: number of lunar months elapsed before Tishri of the
given Hebrew year: 12 ordinary months per elapsed year plus one leap month for
each leap year (years 3, 6, 8, 11, 14, 17, 19 of each 19-year cycle) among
them; 235 months per completed 19-year cycle. -/
def moladMonths (y : Int) : Int :=
  235 * ((y - 1) / 19) + 12 * ((y - 1) % 19) + (7 * ((y - 1) % 19) + 1) / 19

/-- Modelled from the spec: days elapsed from the calendar epoch to Rosh
Hashanah of the given Hebrew year.  The molad of Tishri is obtained by exact
integer day/hour/part arithmetic (epoch molad BaHaRaD, synodic month 29d 12h
793p), and the four postponement rules of section 4.2 are applied: Molad Zaken
(at or after 18h), GaTaRaD (common year, Tuesday at or after 9h204p, net two
days together with Lo ADU Rosh), BeTuTeKaFoT (after a leap year, Monday at or
after 15h589p), and Lo ADU Rosh (never Sunday, Wednesday, Friday). -/
def elapsedDays (y : Int) : Int :=
  let mo := moladMonths y
  let pe := 204 + 793 * (mo % 1080)
  let he := 5 + 12 * mo + 793 * (mo / 1080) + pe / 1080
  let day := 1 + 29 * mo + he / 24
  let parts := 1080 * (he % 24) + pe % 1080
  let day2 :=
    if 19440 ≤ parts ∨
       (day % 7 = 2 ∧ 9924 ≤ parts ∧ is_leap_year y = false) ∨
       (day % 7 = 1 ∧ 16789 ≤ parts ∧ is_leap_year (y - 1) = true) then day + 1 else day
  if day2 % 7 = 0 ∨ day2 % 7 = 3 ∨ day2 % 7 = 5 then day2 + 1 else day2

/-- Modelled from the spec: Julian Day Number of Rosh Hashanah (1 Tishri) of
the given Hebrew year. -/
def rosh_hashanah_jdn (y : Int) : Int := 347997 + elapsedDays y

/-- Modelled from the spec: length in days of the Hebrew civil year, derived as
`rosh_hashanah_jdn(hebrew_year+1) - rosh_hashanah_jdn(hebrew_year)`. -/
def year_length (y : Int) : Int := rosh_hashanah_jdn (y + 1) - rosh_hashanah_jdn y

/-- Modelled from the spec: the supported range of the Hebrew engine is Hebrew
years 1 to 6000 (the spec leaves the exact supported JDN range to the
implementation; dates outside it surface UnsupportedRange). -/
def maxHebrewYear : Int := 6000

/-- Modelled from the spec: the per-month day counts of a Hebrew year, as
(month_index, day_count) pairs in religious-order numbering (1 Nisan to 12/13
Adar), listed in the civil walk order starting from Tishri that `from_jdn` and
`to_jdn` traverse.  Cheshvan and Kislev vary with the year length; Adar I
(month 12, 30 days) exists only in leap years, in which Adar II is month 13. -/
def month_lengths (y : Int) : List (Int × Int) :=
  let len := year_length y
  let cheshvan : Int := if len % 10 = 5 then 30 else 29
  let kislev : Int := if len % 10 = 3 then 29 else 30
  if is_leap_year y then
    [(7, 30), (8, cheshvan), (9, kislev), (10, 29), (11, 30), (12, 30), (13, 29),
     (1, 30), (2, 29), (3, 30), (4, 29), (5, 30), (6, 29)]
  else
    [(7, 30), (8, cheshvan), (9, kislev), (10, 29), (11, 30), (12, 29),
     (1, 30), (2, 29), (3, 30), (4, 29), (5, 30), (6, 29)]

/-- Sum of the day counts of a (month_index, day_count) table. -/
def sumLengths (l : List (Int × Int)) : Int := (l.map Prod.snd).sum

/-- Modelled from the spec: walk a month table, accumulating day counts, until
the 0-based offset within the year locates the month and 1-based day. -/
def walkMonths : List (Int × Int) → Int → Option (Int × Int)
  | [], _ => none
  | (m, len) :: rest, r => if r < len then some (m, r + 1) else walkMonths rest (r - len)

/-- Modelled from the spec: 0-based offset within the year of day `d` of month
index `m`, i.e. the day-count sum of the months before `m` in the walk order
plus `d - 1`; none when the month is absent from the table (in particular
month 13 in a common year) or the day is outside [1, length of that month]. -/
def monthOffset : List (Int × Int) → Int → Int → Option Int
  | [], _, _ => none
  | (m2, len) :: rest, m, d =>
      if m = m2 then (if 1 ≤ d ∧ d ≤ len then some (d - 1) else none)
      else (monthOffset rest m d).map (fun r => r + len)

/-- Modelled from the spec: bounded linear correction of the year estimate used
by `from_jdn`: starting from a lower estimate, advance while the following
Rosh Hashanah is still at or before the target day. -/
def hebrewYearSearch (j : Int) : Nat → Int → Int
  | 0, y => y
  | Nat.succ f, y =>
      if j < rosh_hashanah_jdn (y + 1) then y else hebrewYearSearch j f (y + 1)

/-- Modelled from the spec: bounded linear correction of the Gregorian year
estimate used by the Gregorian `from_jdn`: starting from a lower estimate,
advance while the following January 1 is still at or before the target day. -/
def gregorianYearSearch (j : Int) : Nat → Int → Int
  | 0, y => y
  | Nat.succ f, y =>
      if j < jdnOfJan1 (y + 1) then y else gregorianYearSearch j f (y + 1)

/-- Modelled from the spec: the Gregorian year containing the given JDN,
located by the year search from a lower estimate obtained by dividing the
elapsed days by a bound on the year length.  The search window covers the
whole JDN range of the Hebrew engine (Gregorian years -3762 to 2400). -/
def gregorianYearOf (j : Int) : Int :=
  let v := -3762 + (j - jdnOfJan1 (-3762)) / 366
  let est := if v < -3762 then -3762 else if 2400 < v then 2400 else v
  gregorianYearSearch j (2400 - est).toNat est

/-- Modelled from the spec: the inverse of `gregorianToJdn`: locate the
Gregorian year containing the JDN, then walk the month table to the month and
day.  The fallback branch is unreachable for JDNs in the search window. -/
def jdnToGregorian (j : Int) : Int × Int × Int :=
  match walkMonths (gregMonthLengths (gregorianYearOf j)) (j - jdnOfJan1 (gregorianYearOf j)) with
  | some (m, d) => (gregorianYearOf j, m, d)
  | none => (gregorianYearOf j, 1, 1)

/-- Modelled from the spec: the Hebrew year containing the given JDN, located
as the year whose Rosh Hashanah is at or before the JDN while the next Rosh
Hashanah is after it, searching from an estimate obtained by dividing the
elapsed days by a bound on the year length. -/
def hebrewYearOf (j : Int) : Int :=
  let v := (j - 347997) / 386
  let est := if v < 1 then 1 else if maxHebrewYear < v then maxHebrewYear else v
  hebrewYearSearch j (maxHebrewYear - est).toNat est

/-- Modelled from the spec: `from_jdn` of the Hebrew engine; locates the Hebrew
year of the JDN and walks the month table to the month and day; none when the
JDN is outside the supported range. -/
def hebrewFromJdn (j : Int) : Option (Int × Int × Int) :=
  if rosh_hashanah_jdn 1 ≤ j ∧ j < rosh_hashanah_jdn (maxHebrewYear + 1) then
    let y := hebrewYearOf j
    match walkMonths (month_lengths y) (j - rosh_hashanah_jdn y) with
    | some (m, d) => some (y, m, d)
    | none => none
  else none

/-- Error taxonomy of the conversion boundary (spec sections 6 and 7), together
with the two failure modes of the source itself: a missing convertdate
dependency (ImportError, lines 19 to 24) and a month-name table lookup outside
the 13-entry list (IndexError, line 72). -/
inductive ConvError where
  | InvalidDate
  | InvalidMonth
  | UnsupportedRange
  | ImportError
  | IndexError
deriving DecidableEq

/-- Modelled from the spec: `to_jdn` of the Hebrew engine:
`rosh_hashanah_jdn(year)` plus the day-count sum of the months before the given
month plus `(day - 1)`; fails with InvalidDate if the day exceeds that month's
length or month 13 is requested for a common year. -/
def hebrew_to_jdn (y m d : Int) : Except ConvError Int :=
  if 1 ≤ y ∧ y ≤ maxHebrewYear then
    match monthOffset (month_lengths y) m d with
    | some off => .ok (rosh_hashanah_jdn y + off)
    | none => .error .InvalidDate
  else .error .UnsupportedRange

/-- Modelled from the spec: the reverse conversion of section 8's round-trip
law, composing the Hebrew engine's `to_jdn` with the Gregorian `from_jdn`. -/
def hebrew_to_gregorian (y m d : Int) : Except ConvError (Int × Int × Int) :=
  (hebrew_to_jdn y m d).map jdnToGregorian

/- ## The source's name resolution, formatting and facade
   (src/day02/hebrew_date.py, lines 58 to 82) -/

/-- The month-name table of the source, lines 63 to 67. -/
def HEBREW_MONTH_NAMES : List String :=
  ["Nisan", "Iyar", "Sivan", "Tamuz", "Av", "Elul",
   "Tishri", "Cheshvan", "Kislev", "Tevet", "Shevat",
   "Adar", "Adar II"]

/-- Python list indexing: negative indices count from the end; an index outside
[-len, len) raises IndexError, embedded as none. -/
def pyListGet (l : List String) (i : Int) : Option String :=
  if 0 ≤ i then l[i.toNat]?
  else if -(l.length : Int) ≤ i then l[((l.length : Int) + i).toNat]?
  else none

/-- The source's month-name resolution, lines 69 to 72: index 13 maps to
"Adar II", any other index is looked up at position index - 1 of the table
with Python indexing semantics. -/
def month_name_of (h_month : Int) : Option String :=
  if h_month = 13 then some "Adar II"
  else pyListGet HEBREW_MONTH_NAMES (h_month - 1)

/-- The record returned by `gregorian_to_hebrew` (source lines 76 to 82): the
Hebrew year, month and day are Python ints, the month name and the formatted
rendering are strings. -/
structure HebrewRecord where
  year : Int
  month : Int
  day : Int
  month_name : String
  formatted : String
deriving DecidableEq

/-- The conversion facade of the source (lines 58 to 82): Gregorian validation
and conversion to a JDN, JDN-to-Hebrew conversion (both delegated by the
source to convertdate and modelled from the spec), then the source's own
month-name resolution and the formatted string
`str(day) ++ " " ++ month_name ++ " " ++ str(year)` of line 74. -/
def gregorian_to_hebrew (year month day : Int) : Except ConvError HebrewRecord :=
  if validGregorian year month day then
    match hebrewFromJdn (gregorianToJdn year month day) with
    | some (hy, hm, hd) =>
        match month_name_of hm with
        | some name =>
            .ok { year := hy, month := hm, day := hd, month_name := name,
                  formatted := toString hd ++ " " ++ name ++ " " ++ toString hy }
        | none => .error .IndexError
    | none => .error .UnsupportedRange
  else .error .InvalidDate

/-- The interpreter state observable by `gregorian_to_hebrew` in the source:
whether the convertdate dependency is installed (fixed by the environment) and
whether it has already been imported (the module cache, the only state the
function writes). -/
structure PyState where
  convertdateAvailable : Bool
  importCache : Bool
deriving DecidableEq

/-- The source function as a state-passing call: importing convertdate mutates
only the module cache; when the dependency is missing the call raises
ImportError (source lines 19 to 24 and 54 to 56). -/
def gregorian_to_hebrew_call (st : PyState) (y m d : Int) :
    PyState × Except ConvError HebrewRecord :=
  if st.convertdateAvailable then
    ({ st with importCache := true }, gregorian_to_hebrew y m d)
  else (st, .error .ImportError)

/- ## Helper lemmas: legal year lengths over the supported range -/

/-- Boolean check that a Hebrew year's length is legal and consistent with its
leap status: 383, 384 or 385 days for leap years, 353, 354 or 355 for common
years. -/
def yearLegalB (y : Int) : Bool :=
  if is_leap_year y then
    year_length y == 383 || year_length y == 384 || year_length y == 385
  else
    year_length y == 353 || year_length y == 354 || year_length y == 355

theorem yearLegal_block0 :
    ((List.range 1000).all fun k => yearLegalB ((0 : Int) + k + 1)) = true := by decide

theorem yearLegal_block1 :
    ((List.range 1000).all fun k => yearLegalB ((1000 : Int) + k + 1)) = true := by decide

theorem yearLegal_block2 :
    ((List.range 1000).all fun k => yearLegalB ((2000 : Int) + k + 1)) = true := by decide

theorem yearLegal_block3 :
    ((List.range 1000).all fun k => yearLegalB ((3000 : Int) + k + 1)) = true := by decide

theorem yearLegal_block4 :
    ((List.range 1000).all fun k => yearLegalB ((4000 : Int) + k + 1)) = true := by decide

theorem yearLegal_block5 :
    ((List.range 1000).all fun k => yearLegalB ((5000 : Int) + k + 1)) = true := by decide

/-- Every Hebrew year in the supported range has a legal, leap-consistent year
length. -/
theorem yearLegalB_of_supported (y : Int) (h1 : 1 ≤ y) (h2 : y ≤ maxHebrewYear) :
    yearLegalB y = true := by
  have hblock : ∀ off : Int, ∀ bl : ((List.range 1000).all fun k => yearLegalB (off + k + 1)) = true,
      ∀ n : Nat, (off ≤ y - 1) → (y - 1 < off + 1000) → ((n : Int) = y - 1 - off) → yearLegalB y = true := by
    intro off bl n hlo hhi hn
    have hmem : n ∈ List.range 1000 := List.mem_range.mpr (by omega)
    have := List.all_eq_true.mp bl n hmem
    have harg : off + (n : Int) + 1 = y := by omega
    rwa [harg] at this
  have hmax : maxHebrewYear = 6000 := rfl
  rcases lt_or_le (y - 1) 1000 with h | h
  · exact hblock 0 yearLegal_block0 (y - 1).toNat (by omega) (by omega) (by omega)
  rcases lt_or_le (y - 1) 2000 with h2a | h2a
  · exact hblock 1000 yearLegal_block1 (y - 1 - 1000).toNat (by omega) (by omega) (by omega)
  rcases lt_or_le (y - 1) 3000 with h3a | h3a
  · exact hblock 2000 yearLegal_block2 (y - 1 - 2000).toNat (by omega) (by omega) (by omega)
  rcases lt_or_le (y - 1) 4000 with h4a | h4a
  · exact hblock 3000 yearLegal_block3 (y - 1 - 3000).toNat (by omega) (by omega) (by omega)
  rcases lt_or_le (y - 1) 5000 with h5a | h5a
  · exact hblock 4000 yearLegal_block4 (y - 1 - 4000).toNat (by omega) (by omega) (by omega)
  · exact hblock 5000 yearLegal_block5 (y - 1 - 5000).toNat (by omega) (by omega) (by omega)

/- ## Helper lemmas: year search and month walk -/

/-- The elapsed-day count grows at most 386 days per year, giving a sound
lower estimate for the year search. -/
theorem elapsedDays_le (y : Int) (h : 1 ≤ y) : elapsedDays y ≤ 386 * y := by
  simp only [elapsedDays, moladMonths]
  split_ifs <;> omega

/-- The bounded year search, started at a year whose Rosh Hashanah is at or
before the target day and given fuel reaching past the target, returns the
year containing the target day. -/
theorem hebrewYearSearch_correct (j : Int) : ∀ (f : Nat) (y : Int),
    rosh_hashanah_jdn y ≤ j → j < rosh_hashanah_jdn (y + f + 1) →
    rosh_hashanah_jdn (hebrewYearSearch j f y) ≤ j ∧
    j < rosh_hashanah_jdn (hebrewYearSearch j f y + 1) ∧
    y ≤ hebrewYearSearch j f y ∧ hebrewYearSearch j f y ≤ y + f := by
  intro f
  induction f with
  | zero =>
      intro y h1 h2
      simp only [hebrewYearSearch]
      refine ⟨h1, ?_, le_refl y, by omega⟩
      simpa using h2
  | succ f ih =>
      intro y h1 h2
      simp only [hebrewYearSearch]
      by_cases hc : j < rosh_hashanah_jdn (y + 1)
      · rw [if_pos hc]
        exact ⟨h1, hc, le_refl y, by omega⟩
      · rw [if_neg hc]
        have h1a : rosh_hashanah_jdn (y + 1) ≤ j := not_lt.mp hc
        have h2a : j < rosh_hashanah_jdn (y + 1 + f + 1) := by
          have harg : (y + (f + 1 : Nat) + 1 : Int) = y + 1 + f + 1 := by push_cast; ring
          rwa [harg] at h2
        obtain ⟨a, b, c, d⟩ := ih (y + 1) h1a h2a
        exact ⟨a, b, by omega, by push_cast at d ⊢; omega⟩

/-- The year search run from a sound in-range estimate locates the year
containing the JDN, within the supported range. -/
theorem hebrewYearSearch_run (j est : Int) (h1 : 1 ≤ est) (hN : est ≤ maxHebrewYear)
    (hle : rosh_hashanah_jdn est ≤ j) (h2 : j < rosh_hashanah_jdn (maxHebrewYear + 1)) :
    rosh_hashanah_jdn (hebrewYearSearch j (maxHebrewYear - est).toNat est) ≤ j ∧
    j < rosh_hashanah_jdn (hebrewYearSearch j (maxHebrewYear - est).toNat est + 1) ∧
    1 ≤ hebrewYearSearch j (maxHebrewYear - est).toNat est ∧
    hebrewYearSearch j (maxHebrewYear - est).toNat est ≤ maxHebrewYear := by
  have hfuel : (est : Int) + ((maxHebrewYear - est).toNat : Int) + 1 = maxHebrewYear + 1 := by
    omega
  have hlt : j < rosh_hashanah_jdn (est + ((maxHebrewYear - est).toNat : Int) + 1) := by
    rw [hfuel]; exact h2
  obtain ⟨a, b, c, d⟩ := hebrewYearSearch_correct j (maxHebrewYear - est).toNat est hle hlt
  exact ⟨a, b, by omega, by omega⟩

/-- The located Hebrew year of a JDN in the supported range contains that JDN
and lies within the supported range. -/
theorem hebrewYearOf_correct (j : Int)
    (h1 : rosh_hashanah_jdn 1 ≤ j) (h2 : j < rosh_hashanah_jdn (maxHebrewYear + 1)) :
    rosh_hashanah_jdn (hebrewYearOf j) ≤ j ∧ j < rosh_hashanah_jdn (hebrewYearOf j + 1) ∧
    1 ≤ hebrewYearOf j ∧ hebrewYearOf j ≤ maxHebrewYear := by
  have hmax : maxHebrewYear = 6000 := rfl
  have hdiv : 386 * ((j - 347997) / 386) ≤ j - 347997 := by omega
  have hd0 : ∀ e : Int,
      (if (j - 347997) / 386 < 1 then (1 : Int)
       else if maxHebrewYear < (j - 347997) / 386 then maxHebrewYear
       else (j - 347997) / 386) = e →
      hebrewYearOf j = hebrewYearSearch j (maxHebrewYear - e).toNat e := by
    intro e he
    unfold hebrewYearOf
    dsimp only
    rw [he]
  by_cases hv1 : (j - 347997) / 386 < 1
  · rw [hd0 1 (by rw [if_pos hv1])]
    exact hebrewYearSearch_run j 1 (by omega) (by omega) h1 h2
  · by_cases hv2 : maxHebrewYear < (j - 347997) / 386
    · rw [hd0 maxHebrewYear (by rw [if_neg hv1, if_pos hv2])]
      have helap := elapsedDays_le maxHebrewYear (by omega)
      refine hebrewYearSearch_run j maxHebrewYear (by omega) (by omega) ?_ h2
      unfold rosh_hashanah_jdn
      omega
    · rw [hd0 ((j - 347997) / 386) (by rw [if_neg hv1, if_neg hv2])]
      have helap := elapsedDays_le ((j - 347997) / 386) (by omega)
      refine hebrewYearSearch_run j ((j - 347997) / 386) (by omega) (by omega) ?_ h2
      unfold rosh_hashanah_jdn
      omega

/-- The month index returned by the walk occurs in the table. -/
theorem walkMonths_mem_fst : ∀ (l : List (Int × Int)) (r m d : Int),
    walkMonths l r = some (m, d) → m ∈ l.map Prod.fst := by
  intro l
  induction l with
  | nil => intro r m d h; simp [walkMonths] at h
  | cons p rest ih =>
      intro r m d h
      obtain ⟨m2, len⟩ := p
      simp only [walkMonths] at h
      split at h
      · simp only [Option.some.injEq, Prod.mk.injEq] at h
        simp [h.1.symm]
      · simpa using Or.inr (ih _ _ _ h)

/-- Sum of the day counts of a cons cell. -/
theorem sumLengths_cons (m len : Int) (rest : List (Int × Int)) :
    sumLengths ((m, len) :: rest) = len + sumLengths rest := by
  simp [sumLengths]

/-- A 0-based offset strictly below the total day count is located by the
walk. -/
theorem walkMonths_isSome : ∀ (l : List (Int × Int)) (r : Int),
    0 ≤ r → r < sumLengths l → ∃ m d, walkMonths l r = some (m, d) := by
  intro l
  induction l with
  | nil => intro r h0 h1; simp [sumLengths] at h1; omega
  | cons p rest ih =>
      intro r h0 h1
      obtain ⟨m2, len⟩ := p
      rw [sumLengths_cons] at h1
      simp only [walkMonths]
      by_cases hc : r < len
      · exact ⟨m2, r + 1, by rw [if_pos hc]⟩
      · rw [if_neg hc]
        exact ih (r - len) (by omega) (by omega)

/-- On a table with distinct month indices, the walk and the offset
computation are inverse: walking to (month, day) from offset r means the
offset of (month, day) is r. -/
theorem walkMonths_monthOffset : ∀ (l : List (Int × Int)) (r m d : Int),
    (l.map Prod.fst).Nodup → 0 ≤ r → walkMonths l r = some (m, d) →
    monthOffset l m d = some r := by
  intro l
  induction l with
  | nil => intro r m d _ _ h; simp [walkMonths] at h
  | cons p rest ih =>
      intro r m d hnd h0 h
      obtain ⟨m2, len⟩ := p
      simp only [List.map, List.nodup_cons] at hnd
      simp only [walkMonths] at h
      simp only [monthOffset]
      split at h
      · simp only [Option.some.injEq, Prod.mk.injEq] at h
        obtain ⟨hm, hd2⟩ := h
        rw [if_pos hm.symm, if_pos (by omega)]
        congr 1
        omega
      · have hmem : m ∈ rest.map Prod.fst := walkMonths_mem_fst _ _ _ _ h
        have hne : m ≠ m2 := by
          intro he; exact hnd.1 (he ▸ hmem)
        rw [if_neg hne]
        rw [ih (r - len) m d hnd.2 (by omega) h]
        simp only [Option.map]
        congr 1
        omega

/- ## Helper lemmas: month tables of supported years -/

/-- The month indices of a year's table are distinct. -/
theorem month_lengths_nodup (y : Int) : ((month_lengths y).map Prod.fst).Nodup := by
  unfold month_lengths
  dsimp only
  split <;> simp

/-- Every month index of a year's table lies in [1, 13]. -/
theorem month_lengths_fst_bounds (y : Int) :
    ∀ m ∈ (month_lengths y).map Prod.fst, 1 ≤ m ∧ m ≤ 13 := by
  unfold month_lengths
  dsimp only
  split <;> intro m hm <;> simp at hm <;> rcases hm with h | h | h | h | h | h | h | h | h | h | h | h | h <;> omega

/-- Month index 13 occurs in a year's table only if the year is leap. -/
theorem month_lengths_13_leap (y : Int)
    (h : (13 : Int) ∈ (month_lengths y).map Prod.fst) : is_leap_year y = true := by
  unfold month_lengths at h
  dsimp only at h
  by_cases hl : is_leap_year y = true
  · exact hl
  · rw [if_neg (by simpa using hl)] at h
    simp at h

/-- For supported years the day counts of the month table sum exactly to the
year length. -/
theorem sum_month_lengths (y : Int) (h1 : 1 ≤ y) (h2 : y ≤ maxHebrewYear) :
    sumLengths (month_lengths y) = year_length y := by
  have hleg := yearLegalB_of_supported y h1 h2
  unfold yearLegalB at hleg
  unfold month_lengths
  dsimp only
  by_cases hl : is_leap_year y = true
  · rw [if_pos hl] at hleg ⊢
    simp only [Bool.or_eq_true, beq_iff_eq] at hleg
    simp only [sumLengths, List.map_cons, List.map_nil, List.sum_cons, List.sum_nil]
    split_ifs <;> omega
  · rw [if_neg hl] at hleg ⊢
    simp only [Bool.or_eq_true, beq_iff_eq] at hleg
    simp only [sumLengths, List.map_cons, List.map_nil, List.sum_cons, List.sum_nil]
    split_ifs <;> omega

/-- The source's month-name resolution succeeds on every index of [1, 13]. -/
theorem month_name_of_isSome (m : Int) (h1 : 1 ≤ m) (h2 : m ≤ 13) :
    ∃ s, month_name_of m = some s := by
  interval_cases m <;> exact ⟨_, rfl⟩

/- ## Helper lemmas: JDN to Hebrew and back -/

/-- Core Hebrew round trip: every JDN in the supported range converts to a
Hebrew triple that converts back to the same JDN. -/
theorem hebrewFromJdn_toJdn (j : Int)
    (h1 : rosh_hashanah_jdn 1 ≤ j) (h2 : j < rosh_hashanah_jdn (maxHebrewYear + 1)) :
    ∃ y m d, hebrewFromJdn j = some (y, m, d) ∧ hebrew_to_jdn y m d = .ok j ∧
      1 ≤ y ∧ y ≤ maxHebrewYear ∧ 1 ≤ m ∧ m ≤ 13 := by
  obtain ⟨ha, hb, hc, hd⟩ := hebrewYearOf_correct j h1 h2
  have hsum := sum_month_lengths (hebrewYearOf j) hc hd
  have hr0 : 0 ≤ j - rosh_hashanah_jdn (hebrewYearOf j) := by omega
  have hr1 : j - rosh_hashanah_jdn (hebrewYearOf j) < sumLengths (month_lengths (hebrewYearOf j)) := by
    rw [hsum]
    unfold year_length
    omega
  obtain ⟨m, d, hwalk⟩ := walkMonths_isSome _ _ hr0 hr1
  have hoff := walkMonths_monthOffset _ _ _ _ (month_lengths_nodup (hebrewYearOf j)) hr0 hwalk
  have hmb := month_lengths_fst_bounds (hebrewYearOf j) m (walkMonths_mem_fst _ _ _ _ hwalk)
  refine ⟨hebrewYearOf j, m, d, ?_, ?_, hc, hd, hmb.1, hmb.2⟩
  · unfold hebrewFromJdn
    rw [if_pos ⟨h1, h2⟩]
    dsimp only
    rw [hwalk]
  · unfold hebrew_to_jdn
    rw [if_pos ⟨hc, hd⟩, hoff]
    dsimp only
    congr 1
    omega

/- ## Helper lemmas: the conversion facade -/

/-- Success characterization of the facade: a valid Gregorian date whose JDN
lies in the supported range converts to a record built from the engine's
Hebrew triple, the source's month name, and the source's formatted string,
and the Hebrew triple converts back to the same JDN. -/
theorem gregorian_to_hebrew_ok (y m d : Int)
    (hval : validGregorian y m d = true)
    (hlo : rosh_hashanah_jdn 1 ≤ gregorianToJdn y m d)
    (hhi : gregorianToJdn y m d < rosh_hashanah_jdn (maxHebrewYear + 1)) :
    ∃ hy hm hd name,
      hebrewFromJdn (gregorianToJdn y m d) = some (hy, hm, hd) ∧
      month_name_of hm = some name ∧
      gregorian_to_hebrew y m d =
        .ok { year := hy, month := hm, day := hd, month_name := name,
              formatted := toString hd ++ " " ++ name ++ " " ++ toString hy } ∧
      hebrew_to_jdn hy hm hd = .ok (gregorianToJdn y m d) := by
  obtain ⟨hy, hm, hd, hfrom, hback, _, _, hm1, hm13⟩ :=
    hebrewFromJdn_toJdn (gregorianToJdn y m d) hlo hhi
  obtain ⟨name, hname⟩ := month_name_of_isSome hm hm1 hm13
  refine ⟨hy, hm, hd, name, hfrom, hname, ?_, hback⟩
  unfold gregorian_to_hebrew
  rw [if_pos hval, hfrom]
  dsimp only
  rw [hname]

/-- Every record returned by the facade carries the resolved name of its own
month index and the formatted string composed from its own fields. -/
theorem gregorian_to_hebrew_ok_inv (y m d : Int) (r : HebrewRecord)
    (h : gregorian_to_hebrew y m d = .ok r) :
    month_name_of r.month = some r.month_name ∧
    r.formatted = toString r.day ++ " " ++ r.month_name ++ " " ++ toString r.year := by
  unfold gregorian_to_hebrew at h
  split at h
  · split at h
    · split at h
      · simp only [Except.ok.injEq] at h
        subst h
        simp_all
      · simp at h
    · simp at h
  · simp at h

/-- A month index absent from the table has no offset. -/
theorem monthOffset_not_mem : ∀ (l : List (Int × Int)) (m d : Int),
    m ∉ l.map Prod.fst → monthOffset l m d = none := by
  intro l
  induction l with
  | nil => intro m d _; rfl
  | cons p rest ih =>
      intro m d hnm
      obtain ⟨m2, len⟩ := p
      simp only [List.map, List.mem_cons, not_or] at hnm
      simp only [monthOffset]
      rw [if_neg hnm.1, ih m d hnm.2]
      rfl

/-- A day beyond the found month's length has no offset. -/
theorem monthOffset_none_of_day_gt : ∀ (l : List (Int × Int)) (m d len : Int),
    ((l.find? fun p => p.1 == m).map Prod.snd) = some len → len < d →
    monthOffset l m d = none := by
  intro l
  induction l with
  | nil => intro m d len h _; simp [List.find?] at h
  | cons p rest ih =>
      intro m d len h hgt
      obtain ⟨m2, len2⟩ := p
      simp only [monthOffset]
      cases hpa : ((m2, len2).1 == m)
      · simp only [List.find?, hpa] at h
        have hne : m ≠ m2 := by
          intro he
          simp [he] at hpa
        rw [if_neg hne, ih m d len h hgt]
        rfl
      · simp only [List.find?, hpa] at h
        simp only [Option.map, Option.some.injEq] at h
        have hm2 : m = m2 := by
          have := hpa
          simp only [beq_iff_eq] at this
          exact this.symm
        rw [if_pos hm2, if_neg (by omega)]

/- ## Helper lemmas: Gregorian calendar -/

/-- January 1 JDNs are monotone in the year. -/
theorem jdnOfJan1_mono (y1 y2 : Int) (h : y1 ≤ y2) : jdnOfJan1 y1 ≤ jdnOfJan1 y2 := by
  unfold jdnOfJan1 gregorianToJdn
  norm_num
  omega

/-- January 1 JDNs grow at most 366 days per year. -/
theorem jdnOfJan1_growth (y k : Int) (hk : 0 ≤ k) :
    jdnOfJan1 (y + k) ≤ jdnOfJan1 y + 366 * k := by
  unfold jdnOfJan1 gregorianToJdn
  norm_num
  omega

/-- A valid Gregorian date's JDN lies between January 1 of its year and
January 1 of the next year. -/
theorem gregorianToJdn_in_year (y m d : Int) (hv : validGregorian y m d = true) :
    jdnOfJan1 y ≤ gregorianToJdn y m d ∧ gregorianToJdn y m d < jdnOfJan1 (y + 1) := by
  simp only [validGregorian, Bool.and_eq_true, decide_eq_true_eq] at hv
  obtain ⟨⟨⟨h1, h2⟩, h3⟩, h4⟩ := hv
  have h4b : d ≤ 31 := by
    unfold gregorianDaysInMonth at h4
    split_ifs at h4 <;> omega
  unfold jdnOfJan1 gregorianToJdn
  interval_cases m <;> norm_num <;> omega

/-- The Boolean Gregorian leap test as an arithmetic statement. -/
theorem gregorianLeap_iff (y : Int) :
    gregorianLeap y = true ↔ (y % 4 = 0 ∧ (y % 100 ≠ 0 ∨ y % 400 = 0)) := by
  simp [gregorianLeap]

/-- Offsets computed by the table are nonnegative when all day counts are. -/
theorem monthOffset_nonneg : ∀ (l : List (Int × Int)) (m d r : Int),
    (∀ p ∈ l, 0 ≤ p.2) → monthOffset l m d = some r → 0 ≤ r := by
  intro l
  induction l with
  | nil => intro m d r _ h; simp [monthOffset] at h
  | cons p rest ih =>
      intro m d r hpos h
      obtain ⟨m2, len⟩ := p
      have hlen : (0 : Int) ≤ len := hpos (m2, len) (List.mem_cons_self _ _)
      have hrest : ∀ q ∈ rest, (0 : Int) ≤ q.2 := fun q hq => hpos q (List.mem_cons_of_mem _ hq)
      simp only [monthOffset] at h
      split at h
      · split at h
        · simp only [Option.some.injEq] at h
          omega
        · simp at h
      · obtain ⟨r2, hr2, hr2e⟩ := Option.map_eq_some'.mp h
        have := ih m d r2 hrest hr2
        omega

/-- Converse walk lemma: if the table assigns offset r to (month, day), then
walking from offset r recovers (month, day). -/
theorem monthOffset_walkMonths : ∀ (l : List (Int × Int)) (m d r : Int),
    (∀ p ∈ l, 0 ≤ p.2) → monthOffset l m d = some r → walkMonths l r = some (m, d) := by
  intro l
  induction l with
  | nil => intro m d r _ h; simp [monthOffset] at h
  | cons p rest ih =>
      intro m d r hpos h
      obtain ⟨m2, len⟩ := p
      have hlen : (0 : Int) ≤ len := hpos (m2, len) (List.mem_cons_self _ _)
      have hrest : ∀ q ∈ rest, (0 : Int) ≤ q.2 := fun q hq => hpos q (List.mem_cons_of_mem _ hq)
      simp only [monthOffset] at h
      simp only [walkMonths]
      split at h
      · rename_i hm
        split at h
        · rename_i hd2
          simp only [Option.some.injEq] at h
          rw [if_pos (by omega)]
          simp only [Option.some.injEq, Prod.mk.injEq]
          exact ⟨hm.symm, by omega⟩
        · simp at h
      · obtain ⟨r2, hr2, hr2e⟩ := Option.map_eq_some'.mp h
        have hnn := monthOffset_nonneg rest m d r2 hrest hr2
        rw [if_neg (by omega)]
        have harg : r - len = r2 := by omega
        rw [harg]
        exact ih m d r2 hrest hr2

/-- All Gregorian month day counts are nonnegative. -/
theorem gregMonthLengths_nonneg (y : Int) : ∀ p ∈ gregMonthLengths y, (0 : Int) ≤ p.2 := by
  intro p hp
  unfold gregMonthLengths at hp
  by_cases hlp : gregorianLeap y = true
  · rw [if_pos hlp] at hp
    fin_cases hp <;> norm_num
  · rw [if_neg hlp] at hp
    fin_cases hp <;> norm_num

set_option maxHeartbeats 2000000 in
/-- The Gregorian month table assigns to a valid date exactly its day offset
within the year. -/
theorem greg_offset (y m d : Int) (hv : validGregorian y m d = true) :
    monthOffset (gregMonthLengths y) m d = some (gregorianToJdn y m d - jdnOfJan1 y) := by
  simp only [validGregorian, Bool.and_eq_true, decide_eq_true_eq] at hv
  obtain ⟨⟨⟨h1, h2⟩, h3⟩, h4⟩ := hv
  unfold gregorianDaysInMonth at h4
  suffices key : ∀ t : Int, t = gregorianToJdn y m d - jdnOfJan1 y →
      monthOffset (gregMonthLengths y) m d = some t from key _ rfl
  intro t ht
  unfold jdnOfJan1 gregorianToJdn at ht
  unfold gregMonthLengths
  by_cases hlp : gregorianLeap y = true
  · have harith := (gregorianLeap_iff y).mp hlp
    rw [if_pos hlp] at h4 ⊢
    interval_cases m <;> norm_num [monthOffset] at h4 ht ⊢ <;> omega
  · have harith : ¬ (y % 4 = 0 ∧ (y % 100 ≠ 0 ∨ y % 400 = 0)) :=
      fun hc => hlp ((gregorianLeap_iff y).mpr hc)
    rw [if_neg hlp] at h4 ⊢
    interval_cases m <;> norm_num [monthOffset] at h4 ht ⊢ <;> omega

/-- Walking the Gregorian month table from the day offset of a valid date
within its year recovers the month and day. -/
theorem walk_gregMonths (y m d : Int) (hv : validGregorian y m d = true) :
    walkMonths (gregMonthLengths y) (gregorianToJdn y m d - jdnOfJan1 y) = some (m, d) :=
  monthOffset_walkMonths _ _ _ _ (gregMonthLengths_nonneg y) (greg_offset y m d hv)

/-- The bounded Gregorian year search, started at a year whose January 1 is at
or before the target day and given fuel reaching past the target, returns the
year containing the target day. -/
theorem gregorianYearSearch_correct (j : Int) : ∀ (f : Nat) (y : Int),
    jdnOfJan1 y ≤ j → j < jdnOfJan1 (y + f + 1) →
    jdnOfJan1 (gregorianYearSearch j f y) ≤ j ∧
    j < jdnOfJan1 (gregorianYearSearch j f y + 1) ∧
    y ≤ gregorianYearSearch j f y ∧ gregorianYearSearch j f y ≤ y + f := by
  intro f
  induction f with
  | zero =>
      intro y h1 h2
      simp only [gregorianYearSearch]
      refine ⟨h1, ?_, le_refl y, by omega⟩
      simpa using h2
  | succ f ih =>
      intro y h1 h2
      simp only [gregorianYearSearch]
      by_cases hc : j < jdnOfJan1 (y + 1)
      · rw [if_pos hc]
        exact ⟨h1, hc, le_refl y, by omega⟩
      · rw [if_neg hc]
        have h1a : jdnOfJan1 (y + 1) ≤ j := not_lt.mp hc
        have h2a : j < jdnOfJan1 (y + 1 + f + 1) := by
          have harg : (y + (f + 1 : Nat) + 1 : Int) = y + 1 + f + 1 := by push_cast; ring
          rwa [harg] at h2
        obtain ⟨a, b, c, d⟩ := ih (y + 1) h1a h2a
        exact ⟨a, b, by omega, by push_cast at d ⊢; omega⟩

/-- The Gregorian year search run from a sound in-window estimate locates the
year containing the JDN. -/
theorem gregorianYearSearch_run (j est : Int) (hN : est ≤ 2400)
    (hle : jdnOfJan1 est ≤ j) (h2 : j < jdnOfJan1 2401) :
    jdnOfJan1 (gregorianYearSearch j (2400 - est).toNat est) ≤ j ∧
    j < jdnOfJan1 (gregorianYearSearch j (2400 - est).toNat est + 1) := by
  have hfuel : (est : Int) + ((2400 - est).toNat : Int) + 1 = 2401 := by omega
  have hlt : j < jdnOfJan1 (est + ((2400 - est).toNat : Int) + 1) := by
    rw [hfuel]; exact h2
  obtain ⟨a, b, _, _⟩ := gregorianYearSearch_correct j (2400 - est).toNat est hle hlt
  exact ⟨a, b⟩

/-- The located Gregorian year of a JDN in the search window contains that
JDN. -/
theorem gregorianYearOf_correct (j : Int)
    (h1 : jdnOfJan1 (-3760) ≤ j) (h2 : j < jdnOfJan1 2400) :
    jdnOfJan1 (gregorianYearOf j) ≤ j ∧ j < jdnOfJan1 (gregorianYearOf j + 1) := by
  have hd0 : ∀ e : Int,
      ((if -3762 + (j - jdnOfJan1 (-3762)) / 366 < -3762 then (-3762 : Int)
        else if 2400 < -3762 + (j - jdnOfJan1 (-3762)) / 366 then 2400
        else -3762 + (j - jdnOfJan1 (-3762)) / 366) = e) →
      gregorianYearOf j = gregorianYearSearch j (2400 - e).toNat e := by
    intro e he
    unfold gregorianYearOf
    dsimp only
    rw [he]
  have hjan2401 : j < jdnOfJan1 2401 :=
    lt_of_lt_of_le h2 (jdnOfJan1_mono 2400 2401 (by omega))
  by_cases hv1 : -3762 + (j - jdnOfJan1 (-3762)) / 366 < -3762
  · rw [hd0 (-3762) (by rw [if_pos hv1])]
    exact gregorianYearSearch_run j (-3762) (by omega)
      (le_trans (jdnOfJan1_mono (-3762) (-3760) (by omega)) h1) hjan2401
  · by_cases hv2 : 2400 < -3762 + (j - jdnOfJan1 (-3762)) / 366
    · exfalso
      have hg := jdnOfJan1_growth (-3762) 6162 (by omega)
      have harg : (-3762 : Int) + 6162 = 2400 := by norm_num
      rw [harg] at hg
      omega
    · rw [hd0 (-3762 + (j - jdnOfJan1 (-3762)) / 366) (by rw [if_neg hv1, if_neg hv2])]
      refine gregorianYearSearch_run j (-3762 + (j - jdnOfJan1 (-3762)) / 366)
        (by omega) ?_ hjan2401
      have hg := jdnOfJan1_growth (-3762) ((j - jdnOfJan1 (-3762)) / 366) (by omega)
      omega

/-- Converting any structurally valid proleptic Gregorian date within the
search window to its Julian Day Number and back yields the same date. -/
theorem jdn_gregorian_roundtrip (y m d : Int) (hv : validGregorian y m d = true)
    (hy1 : -3760 ≤ y) (hy2 : y ≤ 2399) :
    jdnToGregorian (gregorianToJdn y m d) = (y, m, d) := by
  obtain ⟨hs1, hs2⟩ := gregorianToJdn_in_year y m d hv
  have hr1 : jdnOfJan1 (-3760) ≤ gregorianToJdn y m d :=
    le_trans (jdnOfJan1_mono (-3760) y hy1) hs1
  have hr2 : gregorianToJdn y m d < jdnOfJan1 2400 :=
    lt_of_lt_of_le hs2 (jdnOfJan1_mono (y + 1) 2400 (by omega))
  obtain ⟨ha, hb⟩ := gregorianYearOf_correct _ hr1 hr2
  have hyeq : gregorianYearOf (gregorianToJdn y m d) = y := by
    rcases lt_trichotomy (gregorianYearOf (gregorianToJdn y m d)) y with hlt | heq | hgt
    · have := jdnOfJan1_mono (gregorianYearOf (gregorianToJdn y m d) + 1) y (by omega)
      omega
    · exact heq
    · have := jdnOfJan1_mono (y + 1) (gregorianYearOf (gregorianToJdn y m d)) (by omega)
      omega
  unfold jdnToGregorian
  rw [hyeq, walk_gregMonths y m d hv]

/- ## Claims -/

/-- Claim C1, counterexample: `gregorian_to_hebrew(2025, 11, 7)` does not
return the record {year: 5786, month: 8, day: 1, month_name: "Cheshvan",
formatted: "1 Cheshvan 5786"} that the claim states; November 7, 2025 falls
midway through Cheshvan, not on its first day. -/
theorem claim_C1_counterexample :
    gregorian_to_hebrew 2025 11 7 ≠
      .ok { year := 5786, month := 8, day := 1, month_name := "Cheshvan",
            formatted := "1 Cheshvan 5786" } := by decide

/-- Claim C1, amended: calling `gregorian_to_hebrew(2025, 11, 7)` returns the
record {year: 5786, month: 8, day: 16, month_name: "Cheshvan",
formatted: "16 Cheshvan 5786"}. -/
theorem claim_C1_amended :
    gregorian_to_hebrew 2025 11 7 =
      .ok { year := 5786, month := 8, day := 16, month_name := "Cheshvan",
            formatted := "16 Cheshvan 5786" } := by decide

/-- Claim C2, counterexample: at the public boundary, a Hebrew date with month
index 12 in the leap year 5784 is resolved to the name "Adar", not "Adar I" as
the claim states. -/
theorem claim_C2_counterexample :
    gregorian_to_hebrew 2024 2 15 =
      .ok { year := 5784, month := 12, day := 6, month_name := "Adar",
            formatted := "6 Adar 5784" } ∧
    is_leap_year 5784 = true ∧ ("Adar" : String) ≠ "Adar I" :=
  ⟨by decide, by decide, by decide⟩

/-- Claim C2, amended: for every Hebrew date produced at the public boundary,
the resolved month name for month index 12 is "Adar" in leap years and common
years alike, and the name for month index 13 is "Adar II". -/
theorem claim_C2_amended (y m d : Int) (r : HebrewRecord)
    (h : gregorian_to_hebrew y m d = .ok r) :
    (r.month = 12 → r.month_name = "Adar") ∧
    (r.month = 13 → r.month_name = "Adar II") := by
  obtain ⟨hname, _⟩ := gregorian_to_hebrew_ok_inv y m d r h
  constructor
  · intro h12
    rw [h12] at hname
    have h2 : (some "Adar" : Option String) = some r.month_name := hname
    injection h2 with h3
    exact h3.symm
  · intro h13
    rw [h13] at hname
    have h2 : (some "Adar II" : Option String) = some r.month_name := hname
    injection h2 with h3
    exact h3.symm

/-- Witness for claim C2's amended theorem at the concrete leap-year input
Gregorian (2024, 2, 15), whose Hebrew month index is 12. -/
theorem claim_C2_amended_witness :
    ({ year := 5784, month := 12, day := 6, month_name := "Adar",
       formatted := "6 Adar 5784" } : HebrewRecord).month_name = "Adar" :=
  (claim_C2_amended 2024 2 15
    { year := 5784, month := 12, day := 6, month_name := "Adar",
      formatted := "6 Adar 5784" } (by decide)).1 rfl

/-- Claim C3: for every structurally invalid Gregorian input, with month
outside [1,12] or day out of range for that month and year under the Gregorian
leap rule, the conversion fails with InvalidDate rather than clamping the
input or returning a result. -/
theorem claim_C3 (y m d : Int)
    (h : ¬ (1 ≤ m ∧ m ≤ 12 ∧ 1 ≤ d ∧ d ≤ gregorianDaysInMonth y m)) :
    gregorian_to_hebrew y m d = .error .InvalidDate := by
  have hv : ¬ validGregorian y m d = true := by
    simp only [validGregorian, Bool.and_eq_true, decide_eq_true_eq]
    intro hc
    exact h ⟨hc.1.1.1, hc.1.1.2, hc.1.2, hc.2⟩
  unfold gregorian_to_hebrew
  rw [if_neg hv]

/-- Witness for claim C3 at the concrete invalid input Gregorian (2025, 2, 30)
of the claim. -/
theorem claim_C3_witness :
    ¬ (1 ≤ (2 : Int) ∧ (2 : Int) ≤ 12 ∧ 1 ≤ (30 : Int) ∧
        (30 : Int) ≤ gregorianDaysInMonth 2025 2) ∧
    gregorian_to_hebrew 2025 2 30 = .error .InvalidDate :=
  ⟨by decide, claim_C3 2025 2 30 (by decide)⟩

/-- Claim C4, counterexample: the source's month-name resolution does not fail
for month index 0, which lies outside [1,13], nor for index 13 regardless of
any leap status; both silently resolve to "Adar II" (index 0 through Python's
negative indexing of the 13-entry table). -/
theorem claim_C4_counterexample :
    month_name_of 0 = some "Adar II" ∧ month_name_of 13 = some "Adar II" :=
  ⟨rfl, rfl⟩

/-- Claim C4, amended: the source's month-name resolution never produces an
InvalidMonth error and consults no leap-year status: every index in [-12, 13]
silently resolves to a name, index 13 always to "Adar II", and only indices at
most -13 or at least 14 fail, with a Python IndexError. -/
theorem claim_C4_amended :
    (∀ i : Int, -12 ≤ i → i ≤ 13 → (month_name_of i).isSome = true) ∧
    (∀ i : Int, i ≤ -13 ∨ 14 ≤ i → month_name_of i = none) ∧
    month_name_of 13 = some "Adar II" := by
  refine ⟨?_, ?_, rfl⟩
  · intro i hlo hhi
    interval_cases i <;> rfl
  · intro i hi
    have hi13 : i ≠ 13 := by omega
    unfold month_name_of pyListGet
    rw [if_neg hi13]
    have hlen : ((HEBREW_MONTH_NAMES.length : Int)) = 13 := rfl
    rcases hi with hi | hi
    · rw [if_neg (by omega), hlen, if_neg (by omega)]
    · rw [if_pos (by omega)]
      apply List.getElem?_eq_none
      have hlen2 : HEBREW_MONTH_NAMES.length = 13 := rfl
      omega

/-- Witness for claim C4's amended theorem at the concrete indices 8 and 14. -/
theorem claim_C4_amended_witness :
    (month_name_of 8).isSome = true ∧ month_name_of 14 = none :=
  ⟨claim_C4_amended.1 8 (by decide) (by decide),
   claim_C4_amended.2.1 14 (Or.inr (by decide))⟩

/-- Claim C5: for every valid Gregorian date in the supported range,
converting to a Hebrew date and converting that Hebrew date back to Gregorian
yields the original date again. -/
theorem claim_C5 (y m d : Int) (hval : validGregorian y m d = true)
    (hlo : rosh_hashanah_jdn 1 ≤ gregorianToJdn y m d)
    (hhi : gregorianToJdn y m d < rosh_hashanah_jdn (maxHebrewYear + 1)) :
    ∃ r, gregorian_to_hebrew y m d = .ok r ∧
      hebrew_to_gregorian r.year r.month r.day = .ok (y, m, d) := by
  obtain ⟨hy, hm, hd, name, hfrom, hname, hok, hback⟩ :=
    gregorian_to_hebrew_ok y m d hval hlo hhi
  obtain ⟨hs1, hs2⟩ := gregorianToJdn_in_year y m d hval
  have hw1 : jdnOfJan1 (-3760) ≤ rosh_hashanah_jdn 1 := by decide
  have hw2 : rosh_hashanah_jdn (maxHebrewYear + 1) ≤ jdnOfJan1 2400 := by decide
  have hy1 : -3760 ≤ y := by
    by_contra hc
    push_neg at hc
    have := jdnOfJan1_mono (y + 1) (-3760) (by omega)
    omega
  have hy2 : y ≤ 2399 := by
    by_contra hc
    push_neg at hc
    have := jdnOfJan1_mono 2400 y (by omega)
    omega
  refine ⟨_, hok, ?_⟩
  unfold hebrew_to_gregorian
  dsimp only
  rw [hback]
  dsimp only [Except.map]
  rw [jdn_gregorian_roundtrip y m d hval hy1 hy2]

/-- Witness for claim C5 at the concrete input Gregorian (2025, 11, 7). -/
theorem claim_C5_witness :
    validGregorian 2025 11 7 = true ∧
    rosh_hashanah_jdn 1 ≤ gregorianToJdn 2025 11 7 ∧
    gregorianToJdn 2025 11 7 < rosh_hashanah_jdn (maxHebrewYear + 1) ∧
    ∃ r, gregorian_to_hebrew 2025 11 7 = .ok r ∧
      hebrew_to_gregorian r.year r.month r.day = .ok (2025, 11, 7) :=
  ⟨by decide, by decide, by decide,
   claim_C5 2025 11 7 (by decide) (by decide) (by decide)⟩

/-- Claim C6: a Hebrew year is a leap year exactly when its residue mod 19
lies in the set 3, 6, 8, 11, 14, 17, 0; consequently any 19 consecutive
Hebrew years contain exactly 7 leap years. -/
theorem claim_C6 :
    (∀ y : Int, is_leap_year y = true ↔
      (y % 19 = 3 ∨ y % 19 = 6 ∨ y % 19 = 8 ∨ y % 19 = 11 ∨
       y % 19 = 14 ∨ y % 19 = 17 ∨ y % 19 = 0)) ∧
    (∀ start : Int,
      ((List.range 19).filter fun (k : Nat) => is_leap_year (start + (k : Int))).length = 7) := by
  constructor
  · intro y
    simp only [is_leap_year, Bool.or_eq_true, beq_iff_eq]
    tauto
  · intro start
    have hmod : ∀ k ∈ List.range 19,
        is_leap_year (start + k) = is_leap_year (start % 19 + k) := by
      intro k _
      have hmk : (start + (k : Int)) % 19 = (start % 19 + k) % 19 := by omega
      simp only [is_leap_year]
      rw [hmk]
    rw [List.filter_congr hmod]
    have h1 : 0 ≤ start % 19 := by omega
    have h2 : start % 19 < 19 := by omega
    generalize hgen : start % 19 = r at h1 h2 ⊢
    interval_cases r <;> decide

/-- Claim C7: for every Hebrew year in the supported range, the year length is
one of 353, 354, 355, 383, 384, 385 days, and the day counts of the month
table sum exactly to the year length. -/
theorem claim_C7 (y : Int) (h1 : 1 ≤ y) (h2 : y ≤ maxHebrewYear) :
    (year_length y = 353 ∨ year_length y = 354 ∨ year_length y = 355 ∨
     year_length y = 383 ∨ year_length y = 384 ∨ year_length y = 385) ∧
    sumLengths (month_lengths y) = year_length y := by
  have hleg := yearLegalB_of_supported y h1 h2
  unfold yearLegalB at hleg
  refine ⟨?_, sum_month_lengths y h1 h2⟩
  split at hleg <;> simp only [Bool.or_eq_true, beq_iff_eq] at hleg <;> tauto

/-- Witness for claim C7 at the concrete Hebrew year 5786. -/
theorem claim_C7_witness :
    (1 : Int) ≤ 5786 ∧ (5786 : Int) ≤ maxHebrewYear ∧
    ((year_length 5786 = 353 ∨ year_length 5786 = 354 ∨ year_length 5786 = 355 ∨
      year_length 5786 = 383 ∨ year_length 5786 = 384 ∨ year_length 5786 = 385) ∧
     sumLengths (month_lengths 5786) = year_length 5786) :=
  ⟨by decide, by decide, claim_C7 5786 (by decide) (by decide)⟩

/-- Claim C8: Hebrew month 13 is producible by the JDN-to-Hebrew conversion
only for leap years, and the Hebrew-to-JDN conversion fails with InvalidDate
when month 13 is given for a common year or when the day exceeds the found
month's length. -/
theorem claim_C8 :
    (∀ j hy hm hd : Int, hebrewFromJdn j = some (hy, hm, hd) → hm = 13 →
      is_leap_year hy = true) ∧
    (∀ y d : Int, 1 ≤ y → y ≤ maxHebrewYear → is_leap_year y = false →
      hebrew_to_jdn y 13 d = .error .InvalidDate) ∧
    (∀ y m d len : Int, 1 ≤ y → y ≤ maxHebrewYear →
      ((month_lengths y).find? fun p => p.1 == m).map Prod.snd = some len →
      len < d → hebrew_to_jdn y m d = .error .InvalidDate) := by
  refine ⟨?_, ?_, ?_⟩
  · intro j hy hm hd h h13
    subst h13
    unfold hebrewFromJdn at h
    split at h
    · dsimp only at h
      split at h
      · rename_i m2 d2 heq
        simp only [Option.some.injEq, Prod.mk.injEq] at h
        obtain ⟨hy1, hm1, hd1⟩ := h
        have hmem := walkMonths_mem_fst _ _ _ _ heq
        rw [hm1] at hmem
        rw [← hy1]
        exact month_lengths_13_leap _ hmem
      · simp at h
    · simp at h
  · intro y d hy1 hy2 hlf
    unfold hebrew_to_jdn
    rw [if_pos ⟨hy1, hy2⟩]
    have hnm : (13 : Int) ∉ (month_lengths y).map Prod.fst := by
      intro hmem
      rw [month_lengths_13_leap y hmem] at hlf
      exact Bool.noConfusion hlf
    rw [monthOffset_not_mem _ _ d hnm]
  · intro y m d len hy1 hy2 hfind hgt
    unfold hebrew_to_jdn
    rw [if_pos ⟨hy1, hy2⟩]
    rw [monthOffset_none_of_day_gt _ _ _ _ hfind hgt]

/-- Witness for claim C8: month 13 produced from a JDN in Adar II 5784 (a leap
year), month 13 rejected in the common year 5786, and day 30 rejected for
Tevet (month 10, 29 days) of 5786. -/
theorem claim_C8_witness :
    is_leap_year 5784 = true ∧
    hebrew_to_jdn 5786 13 10 = .error .InvalidDate ∧
    hebrew_to_jdn 5786 10 30 = .error .InvalidDate :=
  ⟨claim_C8.1 (gregorianToJdn 2024 3 20) 5784 13 10 (by decide) rfl,
   claim_C8.2.1 5786 10 (by decide) (by decide) (by decide),
   claim_C8.2.2 5786 10 30 29 (by decide) (by decide) (by decide) (by decide)⟩

/-- Claim C9: the conversion is deterministic and side-effect-free: a call's
result is unchanged by any earlier call (the only state the source touches is
the import cache, which does not affect results), and a call leaves the
environment's dependency availability untouched, so two calls with the same
arguments return the same record or fail with the same error. -/
theorem claim_C9 (st : PyState) (y m d y2 m2 d2 : Int) :
    (gregorian_to_hebrew_call ((gregorian_to_hebrew_call st y2 m2 d2).1) y m d).2 =
      (gregorian_to_hebrew_call st y m d).2 ∧
    ((gregorian_to_hebrew_call st y m d).1).convertdateAvailable =
      st.convertdateAvailable := by
  unfold gregorian_to_hebrew_call
  cases hb : st.convertdateAvailable <;> simp [hb]

/-- Claim C10: whenever `gregorian_to_hebrew` returns a record, its year,
month and day fields are integers (the record type carries them as such) and
its formatted field is composed exactly as day, space, month name, space,
year from the fields of that same record. -/
theorem claim_C10 (y m d : Int) (r : HebrewRecord)
    (h : gregorian_to_hebrew y m d = .ok r) :
    r.formatted = toString r.day ++ " " ++ r.month_name ++ " " ++ toString r.year :=
  (gregorian_to_hebrew_ok_inv y m d r h).2

/-- Witness for claim C10 at the concrete input Gregorian (2025, 1, 1). -/
theorem claim_C10_witness :
    ({ year := 5785, month := 10, day := 1, month_name := "Tevet",
       formatted := "1 Tevet 5785" } : HebrewRecord).formatted =
      toString ({ year := 5785, month := 10, day := 1, month_name := "Tevet",
                  formatted := "1 Tevet 5785" } : HebrewRecord).day ++ " " ++
      ({ year := 5785, month := 10, day := 1, month_name := "Tevet",
         formatted := "1 Tevet 5785" } : HebrewRecord).month_name ++ " " ++
      toString ({ year := 5785, month := 10, day := 1, month_name := "Tevet",
                  formatted := "1 Tevet 5785" } : HebrewRecord).year :=
  claim_C10 2025 1 1
    { year := 5785, month := 10, day := 1, month_name := "Tevet",
      formatted := "1 Tevet 5785" } (by decide)
